import Mathlib

/-!
Shallow embedding of the HypeFollow copy-trading core.

Sources embedded (JavaScript, translated function by function):
  * `src/core/position-calculator.js` — `PositionCalculator.calculateQuantity`,
    `calculateEqualRatio`, `getReversedMasterSize`, `roundToPrecision`;
  * `src/core/risk-control.js` — `RiskControl.checkPositionLimit`;
  * `src/binance/api-client.js` — `BinanceClient.createLimitOrder` (request
    parameters), `getBinanceSymbol`, `getPosition`;
  * `src/core/order-mapper.js` — `OrderMapper.saveMapping`, `deleteMapping`;
  * `src/core/position-tracker.js` — `PositionTracker.addPendingDelta`,
    `getTotalExecutionSize`, `consumePendingDelta`;
  * `src/core/consistency-engine.js` — `ConsistencyEngine.isOrderProcessed`,
    `shouldProcessHyperOrder`, `markOrderProcessed`, `recordOrphanFill`,
    `handleHyperliquidFill`;
  * `src/core/order-executor.js` — `OrderExecutor.getEnforcedQuantity`,
    `executeLimitOrder`, `executeMarketOrder`;
  * `src/index.js` — the Binance user-data-stream handler that calls
    `recordOrphanFill`.

Modelling conventions.  JavaScript numbers are modelled by `ℚ` (the claims
under study are algebraic; IEEE-754 rounding of the store is out of scope).
A JavaScript value that is `null`/`undefined`/`NaN` where a number is
expected is modelled by `none : Option ℚ`.  The Redis key-value store is
modelled as total/partial functions from key strings; a pipeline `exec` is
one state update.  External calls (Binance position query, equity queries,
order placement results) are inputs of each step, packaged in an
environment record.  Outcome metadata stored in the processed-order journal
hash is not modelled; only the presence of the event id is (that is all the
code ever reads back, via the `processed` field).
-/

namespace HypeFollow

/-- Master-venue order side: `'B'` (buy/bid) or `'A'` (ask/sell). -/
inductive Side
  | B
  | A
deriving DecidableEq, Repr

/-- Action type passed to the calculator and the min-size lookup. -/
inductive ActionType
  | opening
  | closing
deriving DecidableEq, Repr

/-- `trading.mode` configuration value. -/
inductive TradingMode
  | fixed
  | equal
deriving DecidableEq, Repr

/-- `trading.minOrderSize[coin]`: either a plain number or a
`{ open, close }` split object (`position-calculator.js`, lines 40–49). -/
inductive MinSizeCfg
  | scalar (q : ℚ)
  | split (forOpen forClose : ℚ)
deriving DecidableEq, Repr

/-- Static configuration read by the embedded components. -/
structure Config where
  mode : TradingMode
  fixedRatioVal : ℚ
  equalRatioVal : ℚ
  minOrderSize : String → Option MinSizeCfg
  maxPositionSize : String → Option ℚ

/-- Equity context for `equal` mode: whether a Hyperliquid address was
supplied, and the two equity values returned by `accountManager`. -/
structure EqInput where
  hasAddr : Bool
  hlEq : ℚ
  bnEq : ℚ

/-- JavaScript `Math.round`: round half toward positive infinity. -/
def jsRound (x : ℚ) : ℤ :=
  ⌊x + 1/2⌋

/-- Quantity decimals table of `PositionCalculator.roundToPrecision`
(`position-calculator.js`, lines 141–147): BTC 3, ETH 3, SOL 1, default 3. -/
def decimalsFor (coin : String) : ℕ :=
  if coin = "BTC" then 3
  else if coin = "ETH" then 3
  else if coin = "SOL" then 1
  else 3

/-- `PositionCalculator.roundToPrecision`:
`Math.round(quantity * factor) / factor` with `factor = 10^precision`. -/
def roundToPrecision (quantity : ℚ) (coin : String) : ℚ :=
  let factor : ℚ := (10 : ℚ) ^ decimalsFor coin
  (jsRound (quantity * factor) : ℚ) / factor

/-- Minimum-size lookup of `calculateQuantity` (and of
`getEnforcedQuantity`): split config is indexed by the action type, a plain
number is used as is, and a missing entry gives 0 (the `|| 0` fallbacks). -/
def minSizeFor (cfg : Config) (coin : String) (a : ActionType) : ℚ :=
  match cfg.minOrderSize coin with
  | some (MinSizeCfg.split o c) =>
      match a with
      | ActionType.opening => o
      | ActionType.closing => c
  | some (MinSizeCfg.scalar q) => q
  | none => 0

/-- `PositionCalculator.calculateEqualRatio`: 0 without an address or with
zero Hyperliquid equity, else `original * (bnEq / hlEq) * equalRatio`. -/
def calculateEqualRatioQty (cfg : Config) (originalQuantity : ℚ) (e : EqInput) : ℚ :=
  if e.hasAddr = false then 0
  else if e.hlEq = 0 then 0
  else originalQuantity * (e.bnEq / e.hlEq * cfg.equalRatioVal)

/-- The scaled (pre-rounding, pre-minimum) quantity computed by
`calculateQuantity` before its post-processing. -/
def scaledQuantity (cfg : Config) (coin : String) (originalQuantity : ℚ) (e : EqInput) : ℚ :=
  match cfg.mode with
  | TradingMode.equal => calculateEqualRatioQty cfg originalQuantity e
  | TradingMode.fixed => originalQuantity * cfg.fixedRatioVal

/-- `PositionCalculator.calculateQuantity` (`position-calculator.js`,
lines 21–72).  Note the source order: the minimum-size check is applied to
the *unrounded* scaled quantity (line 51), and only then is the quantity
rounded to the instrument precision (line 57), with a final `≤ 0` guard
(line 60).  `none` models the `null` returns.  The `coin` argument is used
both for the minimum lookup and the precision table. -/
def calculateQuantity (cfg : Config) (coin : String) (originalQuantity : ℚ)
    (e : EqInput) (a : ActionType) : Option ℚ :=
  let calculated := scaledQuantity cfg coin originalQuantity e
  let minSize := minSizeFor cfg coin a
  if calculated < minSize then none
  else
    let rounded := roundToPrecision calculated coin
    if rounded ≤ 0 then none
    else some rounded

/-- Modelled from the spec: the calculator post-processing in the order the
specification states it — "round to the instrument's decimal precision …
Then apply minimum-size policy"; below-minimum after rounding returns
`null`.  Used only to compare against `calculateQuantity`, which is the
translation of the source. -/
def calculateQuantitySpecOrder (cfg : Config) (coin : String) (originalQuantity : ℚ)
    (e : EqInput) (a : ActionType) : Option ℚ :=
  let calculated := scaledQuantity cfg coin originalQuantity e
  let rounded := roundToPrecision calculated coin
  let minSize := minSizeFor cfg coin a
  if rounded < minSize then none
  else if rounded ≤ 0 then none
  else some rounded

/-- `PositionCalculator.getReversedMasterSize` (`position-calculator.js`,
lines 109–131): follower size divided by the sizing ratio, 0 when the
ratio is 0; in `equal` mode without an address the follower quantity is
returned unchanged, and with zero Hyperliquid equity the ratio stays 1. -/
def getReversedMasterSize (cfg : Config) (followerQuantity : ℚ) (e : EqInput) : ℚ :=
  match cfg.mode with
  | TradingMode.fixed =>
      if cfg.fixedRatioVal = 0 then 0 else followerQuantity / cfg.fixedRatioVal
  | TradingMode.equal =>
      if e.hasAddr = false then followerQuantity
      else
        let r := if e.hlEq > 0 then e.bnEq / e.hlEq * cfg.equalRatioVal else 1
        if r = 0 then 0 else followerQuantity / r

/-- `RiskControl.checkPositionLimit` (`risk-control.js`, lines 58–73):
`true` when no limit is configured, else whether
`|currentPositionSize| + newQuantity` stays within the limit. -/
def checkPositionLimit (cfg : Config) (coin : String)
    (currentPositionSize newQuantity : ℚ) : Bool :=
  match cfg.maxPositionSize coin with
  | none => true
  | some maxLimit => !(|currentPositionSize| + newQuantity > maxLimit)

/-- `BinanceClient.getBinanceSymbol`: `coin + "USDT"`. -/
def getBinanceSymbol (coin : String) : String :=
  coin ++ "USDT"

/-- One entry of the Binance `futuresPositionRisk` response. -/
structure PositionEntry where
  symbol : String
  positionAmt : ℚ
deriving DecidableEq, Repr

/-- `BinanceClient.getPosition` (`api-client.js`, lines 186–196): `none`
input models a thrown/failed position query, which the catch block turns
into the sentinel 0; a missing symbol also yields 0. -/
def getPosition (res : Option (List PositionEntry)) (coin : String) : ℚ :=
  match res with
  | none => 0
  | some positions =>
      match positions.find? (fun p => p.symbol = getBinanceSymbol coin) with
      | some p => p.positionAmt
      | none => 0

/-- The closing test of both executor paths
(`order-executor.js` lines 93 and 274):
`(currentPos > 0 && side === 'A') || (currentPos < 0 && side === 'B')`. -/
def isClosingPos (currentPos : ℚ) (side : Side) : Bool :=
  (decide (currentPos > 0) && decide (side = Side.A)) ||
    (decide (currentPos < 0) && decide (side = Side.B))

/-- Action type chosen by the executor from the current follower position. -/
def actionTypeOf (currentPos : ℚ) (side : Side) : ActionType :=
  if isClosingPos currentPos side then ActionType.closing else ActionType.opening

/-- The parameter object `BinanceClient.createLimitOrder` submits to
`futuresOrder` (`api-client.js`, lines 40–47).  The price is passed through
(`price.toString()`): no transformation is applied to it. -/
structure BinanceOrderParams where
  symbol : String
  sideStr : String
  orderType : String
  timeInForce : String
  quantity : ℚ
  price : ℚ
deriving DecidableEq, Repr

/-- Request parameters built by `BinanceClient.createLimitOrder`. -/
def createLimitOrderParams (coin : String) (side : Side) (price quantity : ℚ) :
    BinanceOrderParams :=
  { symbol := getBinanceSymbol coin
    sideStr := if side = Side.B then "BUY" else "SELL"
    orderType := "LIMIT"
    timeInForce := "GTC"
    quantity := quantity
    price := price }

/-- Modelled from the spec: tick-size snapping
`round(masterPx / tick) × tick`.  No function of the source performs this;
the definition exists to compare the spec's snapped price with the price
the source actually submits. -/
def snapPrice (tick px : ℚ) : ℚ :=
  (jsRound (px / tick) : ℚ) * tick

/-- Value stored at `map:h2b:<hyperOid>` by the mapper, together with the
TTL (seconds) set on the key. -/
structure M2FEntry where
  orderId : String
  symbol : String
  ttl : ℕ
deriving DecidableEq, Repr

/-- Value stored at `map:b2h:<binanceOrderId>`, with its TTL. -/
structure F2MEntry where
  oid : String
  symbol : String
  ttl : ℕ
deriving DecidableEq, Repr

/-- The mapper's slice of the Redis store: the two direction keys and the
creation-timestamp key (`timestamp:order:<hyperOid>`, value and TTL). -/
structure MapperState where
  m2f : String → Option M2FEntry
  f2m : String → Option F2MEntry
  tsOrder : String → Option (ℕ × ℕ)

/-- `EXPIRY` of `order-mapper.js`: 7 days in seconds. -/
def mapperExpiry : ℕ := 60 * 60 * 24 * 7

/-- `OrderMapper.saveMapping` (`order-mapper.js`, lines 17–33): one pipeline
writes both directions and the creation timestamp, each with `EX EXPIRY`
(so the TTL of an overwritten key is refreshed to the full 7 days). -/
def saveMapping (st : MapperState) (hyperOid binanceOrderId symbol : String)
    (now : ℕ) : MapperState :=
  { m2f := fun k =>
      if k = hyperOid then some ⟨binanceOrderId, symbol, mapperExpiry⟩ else st.m2f k
    f2m := fun k =>
      if k = binanceOrderId then some ⟨hyperOid, symbol, mapperExpiry⟩ else st.f2m k
    tsOrder := fun k =>
      if k = hyperOid then some (now, mapperExpiry) else st.tsOrder k }

/-- `OrderMapper.deleteMapping` (`order-mapper.js`, lines 84–101): reads the
forward mapping, then one pipeline deletes the forward key, the timestamp
key, and — when the forward mapping existed — the inverse key. -/
def deleteMapping (st : MapperState) (hyperOid : String) : MapperState :=
  let mappedOrder := st.m2f hyperOid
  { m2f := fun k => if k = hyperOid then none else st.m2f k
    f2m :=
      match mappedOrder with
      | some e => fun k => if k = e.orderId then none else st.f2m k
      | none => st.f2m
    tsOrder := fun k => if k = hyperOid then none else st.tsOrder k }

/-- Invariant I1: every forward mapping has an inverse mapping recording the
same Hyperliquid oid and the same symbol. -/
def MapperInv (st : MapperState) : Prop :=
  ∀ m e, st.m2f m = some e →
    ∃ i, st.f2m e.orderId = some i ∧ i.oid = m ∧ i.symbol = e.symbol

/-- The system state the executor reads and writes: the processed-order
journal (`orderHistory:*` — only the ids; outcome metadata elided), the
mapper keys, and the per-instrument pending delta (`pendingDelta:<coin>`,
absent key read as 0). -/
structure SysState where
  journal : List String
  mapper : MapperState
  pendingDelta : String → ℚ

/-- `ConsistencyEngine.isOrderProcessed`: membership of the event id in the
processed-order journal. -/
def isOrderProcessed (st : SysState) (oid : String) : Bool :=
  st.journal.contains oid

/-- `ConsistencyEngine.markOrderProcessed`: record the event id (details
hash elided; only presence is ever read back). -/
def markOrderProcessed (st : SysState) (oid : String) : SysState :=
  { st with journal := oid :: st.journal }

/-- `PositionTracker.addPendingDelta`: `INCRBYFLOAT pendingDelta:<coin>`. -/
def addPendingDelta (st : SysState) (coin : String) (signedAmount : ℚ) : SysState :=
  { st with
    pendingDelta := fun c =>
      if c = coin then st.pendingDelta c + signedAmount else st.pendingDelta c }

/-- `PositionTracker.consumePendingDelta`: early return on 0, else
`INCRBYFLOAT` of the negated amount (`position-tracker.js`, lines 87–100). -/
def consumePendingDelta (st : SysState) (coin : String) (signedAmountConsumed : ℚ) :
    SysState :=
  if signedAmountConsumed = 0 then st
  else addPendingDelta st coin (-signedAmountConsumed)

/-- `PositionTracker.getTotalExecutionSize`: the signed order size plus the
stored pending delta. -/
def getTotalExecutionSize (st : SysState) (coin : String) (signedOrderSize : ℚ) : ℚ :=
  signedOrderSize + st.pendingDelta coin

/-- Signed size: `side === 'B' ? size : -size`. -/
def signedSize (side : Side) (sz : ℚ) : ℚ :=
  match side with
  | Side.B => sz
  | Side.A => -sz

/-- Master limit-order event as consumed by `executeLimitOrder`
(fields destructured on `order-executor.js` line 52). -/
structure LimitOrderData where
  coin : String
  side : Side
  limitPx : ℚ
  sz : ℚ
  oid : String
deriving DecidableEq, Repr

/-- Master taker-fill event as consumed by `executeMarketOrder`
(line 250).  `szRaw` is the raw size string interpolated into the synthetic
fill id; `sz` is its `parseFloat` value. -/
structure FillData where
  coin : String
  side : Side
  px : ℚ
  sz : ℚ
  szRaw : String
  timestamp : ℕ
deriving DecidableEq, Repr

/-- The synthetic event id built on line 251:
`fill:{coin}:{timestamp}:{sz}`. -/
def FillData.fillId (f : FillData) : String :=
  "fill:" ++ f.coin ++ ":" ++ toString f.timestamp ++ ":" ++ f.szRaw

/-- Result of a `createLimitOrder` / `createMarketOrder` call: resolved
with an `orderId`, resolved without one, or rejected (thrown). -/
inductive PlaceOutcome
  | placed (orderId : String)
  | noId
  | threw
deriving DecidableEq, Repr

/-- External inputs consumed while processing one event: the follower
position returned by `binanceClient.getPosition`, the equity snapshot used
by the calculator, the outcome of the order-placement call, and the wall
clock used for the mapping timestamp. -/
structure Env where
  currentPos : ℚ
  eqIn : EqInput
  place : PlaceOutcome
  now : ℕ

/-- How the executor disposed of one event (ghost observation of the step;
the constructor arguments record the quantity the calculator was invoked
with and the follower quantity submitted). -/
inductive Outcome
  | dedupSkip
  | mappingSkip
  | skippedBelowMin
  | skippedRisk
  | skippedDirection
  | placedNormal (calcArg followerQty : ℚ)
  | placedEnforced (followerQty : ℚ)
  | placeNoEffect
  | errored
deriving DecidableEq, Repr

/-- Side effects issued against the follower venue while processing one
event.  A placement effect is emitted only when the call resolved with an
order id (`PlaceOutcome.placed`), except in the market path where the
source never inspects the id. -/
inductive Effect
  | placeLimit (coin : String) (side : Side) (price qty : ℚ)
  | placeMarket (coin : String) (side : Side) (qty : ℚ)
  | journal (id : String)
deriving DecidableEq, Repr

/-- `OrderExecutor.getEnforcedQuantity` (`order-executor.js`, lines 18–45):
`null` when the calculated quantity is truthy and positive; otherwise, when
the pending delta is nonzero in absolute value, the configured minimum size
for the action type, else `null`. -/
def getEnforcedQuantity (cfg : Config) (coin : String)
    (calculatedQuantity : Option ℚ) (pendingDelta : ℚ) (a : ActionType) :
    Option ℚ :=
  match calculatedQuantity with
  | some q =>
      if q > 0 then none
      else if |pendingDelta| > 0 then some (minSizeFor cfg coin a) else none
  | none =>
      if |pendingDelta| > 0 then some (minSizeFor cfg coin a) else none

/-- `OrderExecutor.executeLimitOrder` (`order-executor.js`, lines 51–243),
as a state transformer.  Branches, in source order:
dedup via `shouldProcessHyperOrder` (journal, then existing mapping);
signed sizes; action type from the current position; quantity from
`calculateQuantity` on the master order size `|s|`; on a missing/zero
quantity the enforcement attempt (min size, risk gate, placement —
falling through to `addPendingDelta` on every failure except a thrown
placement, which the catch block swallows); otherwise the risk gate
(miss credits the delta), placement, and on an order id the mapping save,
journal write and `consumePendingDelta` of `S − s`. -/
def stepLimit (cfg : Config) (env : Env) (st : SysState) (e : LimitOrderData) :
    SysState × List Effect × Outcome :=
  if isOrderProcessed st e.oid then (st, [], Outcome.dedupSkip)
  else if (st.mapper.m2f e.oid).isSome then (st, [], Outcome.mappingSkip)
  else
    let s := signedSize e.side e.sz
    let signedTotalSize := getTotalExecutionSize st e.coin s
    let currentPos := env.currentPos
    let action := actionTypeOf currentPos e.side
    let quantity := calculateQuantity cfg e.coin |s| env.eqIn action
    let notPositive : Bool :=
      match quantity with
      | some q => decide (q ≤ 0)
      | none => true
    if notPositive then
      -- enforcement branch (lines 114–153)
      match getEnforcedQuantity cfg e.coin quantity (st.pendingDelta e.coin) action with
      | some enforcedQuantity =>
          if enforcedQuantity > 0 then
            if checkPositionLimit cfg e.coin currentPos enforcedQuantity then
              match env.place with
              | PlaceOutcome.placed orderId =>
                  let st1 :=
                    { st with mapper :=
                        saveMapping st.mapper e.oid orderId (getBinanceSymbol e.coin) env.now }
                  let st2 := markOrderProcessed st1 e.oid
                  let st3 := consumePendingDelta st2 e.coin (signedTotalSize - s)
                  (st3,
                   [Effect.placeLimit e.coin e.side e.limitPx enforcedQuantity,
                    Effect.journal e.oid],
                   Outcome.placedEnforced enforcedQuantity)
              | PlaceOutcome.noId =>
                  (addPendingDelta st e.coin s, [], Outcome.skippedBelowMin)
              | PlaceOutcome.threw => (st, [], Outcome.errored)
            else (addPendingDelta st e.coin s, [], Outcome.skippedBelowMin)
          else (addPendingDelta st e.coin s, [], Outcome.skippedBelowMin)
      | none => (addPendingDelta st e.coin s, [], Outcome.skippedBelowMin)
    else
      match quantity with
      | some q =>
          if checkPositionLimit cfg e.coin currentPos q then
            match env.place with
            | PlaceOutcome.placed orderId =>
                let st1 :=
                  { st with mapper :=
                      saveMapping st.mapper e.oid orderId (getBinanceSymbol e.coin) env.now }
                let st2 := markOrderProcessed st1 e.oid
                let st3 := consumePendingDelta st2 e.coin (signedTotalSize - s)
                (st3,
                 [Effect.placeLimit e.coin e.side e.limitPx q, Effect.journal e.oid],
                 Outcome.placedNormal |s| q)
            | PlaceOutcome.noId => (st, [], Outcome.placeNoEffect)
            | PlaceOutcome.threw => (st, [], Outcome.errored)
          else (addPendingDelta st e.coin s, [], Outcome.skippedRisk)
      | none => (st, [], Outcome.errored)

/-- `OrderExecutor.executeMarketOrder` (`order-executor.js`, lines
249–338), as a state transformer.  Branches, in source order: dedup on the
synthetic fill id; signed sizes; the epsilon/direction check (skip journals
the fill and credits the delta by `s`); quantity from `calculateQuantity`
on the delta-adjusted total `|S|`; enforcement as in the limit path (but
the market path journals and consumes the delta without inspecting the
returned order id); risk gate; placement; journal and
`consumePendingDelta` of `S − s`.  No mapping is saved and no cap to the
current position is applied. -/
def stepMarket (cfg : Config) (env : Env) (st : SysState) (f : FillData) :
    SysState × List Effect × Outcome :=
  if isOrderProcessed st f.fillId then (st, [], Outcome.dedupSkip)
  else
    let s := signedSize f.side f.sz
    let signedTotalSize := getTotalExecutionSize st f.coin s
    let isDirectionMatch : Bool :=
      (decide (f.side = Side.B) && decide (signedTotalSize > 0)) ||
        (decide (f.side = Side.A) && decide (signedTotalSize < 0))
    let absTotalSize := |signedTotalSize|
    if absTotalSize < 1 / 10000000 || !isDirectionMatch then
      (addPendingDelta (markOrderProcessed st f.fillId) f.coin s,
       [Effect.journal f.fillId], Outcome.skippedDirection)
    else
      let currentPos := env.currentPos
      let action := actionTypeOf currentPos f.side
      let quantity := calculateQuantity cfg f.coin absTotalSize env.eqIn action
      let notPositive : Bool :=
        match quantity with
        | some q => decide (q ≤ 0)
        | none => true
      if notPositive then
        match getEnforcedQuantity cfg f.coin quantity (st.pendingDelta f.coin) action with
        | some enforcedQuantity =>
            if enforcedQuantity > 0 then
              if checkPositionLimit cfg f.coin currentPos enforcedQuantity then
                match env.place with
                | PlaceOutcome.threw => (st, [], Outcome.errored)
                | _ =>
                    let st1 := markOrderProcessed st f.fillId
                    let st2 := consumePendingDelta st1 f.coin (signedTotalSize - s)
                    (st2,
                     [Effect.placeMarket f.coin f.side enforcedQuantity,
                      Effect.journal f.fillId],
                     Outcome.placedEnforced enforcedQuantity)
              else (addPendingDelta st f.coin s, [], Outcome.skippedBelowMin)
            else (addPendingDelta st f.coin s, [], Outcome.skippedBelowMin)
        | none => (addPendingDelta st f.coin s, [], Outcome.skippedBelowMin)
      else
        match quantity with
        | some q =>
            if checkPositionLimit cfg f.coin currentPos q then
              match env.place with
              | PlaceOutcome.threw => (st, [], Outcome.errored)
              | _ =>
                  let st1 := markOrderProcessed st f.fillId
                  let st2 := consumePendingDelta st1 f.coin (signedTotalSize - s)
                  (st2,
                   [Effect.placeMarket f.coin f.side q, Effect.journal f.fillId],
                   Outcome.placedNormal absTotalSize q)
            else (addPendingDelta st f.coin s, [], Outcome.skippedRisk)
        | none => (st, [], Outcome.errored)

/-- A Master event routed by `index.js`: an Open limit order or a crossed
(taker) fill. -/
inductive MEvent
  | limit (e : LimitOrderData)
  | market (f : FillData)
deriving DecidableEq, Repr

/-- Instrument of an event. -/
def MEvent.coin : MEvent → String
  | MEvent.limit e => e.coin
  | MEvent.market f => f.coin

/-- Signed master size `s` of an event. -/
def MEvent.signed : MEvent → ℚ
  | MEvent.limit e => signedSize e.side e.sz
  | MEvent.market f => signedSize f.side f.sz

/-- Event id used for dedup: the oid for limit orders, the synthetic
`fill:…` id for taker fills. -/
def MEvent.eventId : MEvent → String
  | MEvent.limit e => e.oid
  | MEvent.market f => f.fillId

/-- Dispatch of one event to the matching executor path. -/
def stepEvent (cfg : Config) (env : Env) (st : SysState) : MEvent →
    SysState × List Effect × Outcome
  | MEvent.limit e => stepLimit cfg env st e
  | MEvent.market f => stepMarket cfg env st f

/-- Target/Actual contribution of one event, both in master units, read
off the outcome: duplicates and mapping-suppressed deliveries contribute
nothing; a skipped event moves the target by `s` but executes nothing; a
placement (normal or enforced) moves the target by `s` and is accounted by
the code as having executed the full signed total `S`. -/
def contribution (o : Outcome) (s total : ℚ) : ℚ × ℚ :=
  match o with
  | Outcome.dedupSkip => (0, 0)
  | Outcome.mappingSkip => (0, 0)
  | Outcome.skippedBelowMin => (s, 0)
  | Outcome.skippedRisk => (s, 0)
  | Outcome.skippedDirection => (s, 0)
  | Outcome.placedNormal _ _ => (s, total)
  | Outcome.placedEnforced _ => (s, total)
  | Outcome.placeNoEffect => (0, 0)
  | Outcome.errored => (0, 0)

/-- Outcomes on which the executor's delta bookkeeping actually ran: a
thrown placement (caught and logged, line 241/336) and a resolved
placement without an order id leave the ledger silently untouched and are
excluded. -/
def Outcome.isAccounted : Outcome → Bool
  | Outcome.placeNoEffect => false
  | Outcome.errored => false
  | _ => true

/-- Pointwise bump of a per-instrument accumulator. -/
def bump (f : String → ℚ) (coin : String) (v : ℚ) : String → ℚ :=
  fun c => if c = coin then f c + v else f c

/-- Run a history of events, accumulating per-instrument Target
(master-intended) and Actual (follower-executed, in master units, as the
code accounts it) totals. -/
def runTotalsAux (cfg : Config) :
    SysState → (String → ℚ) → (String → ℚ) → List (MEvent × Env) →
    SysState × (String → ℚ) × (String → ℚ)
  | st, tgt, act, [] => (st, tgt, act)
  | st, tgt, act, (ev, env) :: rest =>
      let r := stepEvent cfg env st ev
      let c := contribution r.2.2 ev.signed (ev.signed + st.pendingDelta ev.coin)
      runTotalsAux cfg r.1 (bump tgt ev.coin c.1) (bump act ev.coin c.2) rest

/-- Run a history from zeroed accumulators. -/
def runTotals (cfg : Config) (st : SysState) (evs : List (MEvent × Env)) :
    SysState × (String → ℚ) × (String → ℚ) :=
  runTotalsAux cfg st (fun _ => 0) (fun _ => 0) evs

/-- A history along which every event's outcome is accounted (no placement
call threw or resolved without an order id). -/
def goodRun (cfg : Config) : SysState → List (MEvent × Env) → Bool
  | _, [] => true
  | st, (ev, env) :: rest =>
      let r := stepEvent cfg env st ev
      r.2.2.isAccounted && goodRun cfg r.1 rest

/-- The `fillDetails` object passed to `recordOrphanFill`.  JavaScript
objects are open; the engine reads the keys `coin`, `side`, `size`,
`price`, `binanceOrderId`, so those are modelled, with `Option` marking
keys a caller may not have set (`none` = `undefined`).  `szKey` is the
value the `index.js` caller stores under the key `sz`, which the engine
never reads. -/
structure FillDetails where
  coin : String
  side : Side
  size : Option ℚ
  szKey : Option ℚ
  price : Option ℚ
  binanceOrderId : String
deriving DecidableEq, Repr

/-- The object literal built by the Binance user-stream handler
(`index.js`, lines 147–153): the fill size is supplied under the key `sz`
(from `order.lastTradeQuantity || order.l`); no `size` key is set. -/
def callerFillDetails (coin : String) (side : Side) (lastTradeQty lastTradePrice : ℚ)
    (binanceOrderId : String) : FillDetails :=
  { coin := coin
    side := side
    size := none
    szKey := some lastTradeQty
    price := some lastTradePrice
    binanceOrderId := binanceOrderId }

/-- The orphan-fill hash stored at `orphanFill:<hyperOid>` (`size` and
`masterSize` are `none` when the stored value was `undefined`/`NaN`). -/
structure OrphanRecord where
  coin : String
  side : Side
  size : Option ℚ
  price : Option ℚ
  binanceOrderId : String
  masterSize : Option ℚ
deriving DecidableEq, Repr

/-- The consistency engine's slice of the store: orphan records plus the
pending-delta ledger. -/
structure OrphanLedger where
  orphans : String → Option OrphanRecord
  pendingDelta : String → ℚ

/-- The signed delta adjustment `recordOrphanFill` attempts
(`consistency-engine.js`, lines 96–109): the master-unit equivalent of the
follower fill size, negated for a buy.  `none` models the `NaN` produced
when the `size` key is absent (`parseFloat(undefined)`), in which case
`INCRBYFLOAT` rejects the value and the ledger is not changed. -/
def orphanDeltaAdjustment (cfg : Config) (e : EqInput) (fd : FillDetails) : Option ℚ :=
  (fd.size).map (fun followerSize =>
    let masterSize := getReversedMasterSize cfg followerSize e
    match fd.side with
    | Side.B => -masterSize
    | Side.A => masterSize)

/-- `ConsistencyEngine.recordOrphanFill` (`consistency-engine.js`, lines
80–112): return unchanged when a record already exists for the oid; else
store the record (with the computed master-size equivalent) and apply the
provisional delta adjustment — which is skipped when the size read out of
`fillDetails.size` is missing (`NaN`), because the `INCRBYFLOAT` fails. -/
def recordOrphanFill (cfg : Config) (e : EqInput) (st : OrphanLedger)
    (hyperOid : String) (fd : FillDetails) : OrphanLedger :=
  if (st.orphans hyperOid).isSome then st
  else
    let masterSize := (fd.size).map (fun q => getReversedMasterSize cfg q e)
    let rec0 : OrphanRecord :=
      { coin := fd.coin
        side := fd.side
        size := fd.size
        price := fd.price
        binanceOrderId := fd.binanceOrderId
        masterSize := masterSize }
    let st1 : OrphanLedger :=
      { st with orphans := fun k => if k = hyperOid then some rec0 else st.orphans k }
    match orphanDeltaAdjustment cfg e fd with
    | some signedChange =>
        { st1 with pendingDelta := fun c =>
            if c = fd.coin then st1.pendingDelta c + signedChange else st1.pendingDelta c }
    | none => st1

/-- The master size `handleHyperliquidFill` resolves with
(`consistency-engine.js`, lines 129–137): the stored `masterSize` when it
parses to a nonzero number, else a fresh reverse translation of the stored
`size` (`none` when that too is missing). -/
def resolveMasterSize (cfg : Config) (e : EqInput) (r : OrphanRecord) : Option ℚ :=
  match r.masterSize with
  | some m => if m = 0 then (r.size).map (fun q => getReversedMasterSize cfg q e) else some m
  | none => (r.size).map (fun q => getReversedMasterSize cfg q e)

/-- `ConsistencyEngine.handleHyperliquidFill` (`consistency-engine.js`,
lines 119–146): when an orphan record exists, reverse the provisional
adjustment (positive master size for a buy) and delete the record; when
the resolved master size is `NaN` the `INCRBYFLOAT` throws before the
`DEL`, so neither the ledger nor the record changes. -/
def handleHyperliquidFill (cfg : Config) (e : EqInput) (st : OrphanLedger)
    (oid : String) : OrphanLedger :=
  match st.orphans oid with
  | none => st
  | some r =>
      match resolveMasterSize cfg e r with
      | none => st
      | some masterSize =>
          let signedChange :=
            match r.side with
            | Side.B => masterSize
            | Side.A => -masterSize
          { orphans := fun k => if k = oid then none else st.orphans k
            pendingDelta := fun c =>
              if c = r.coin then st.pendingDelta c + signedChange else st.pendingDelta c }

/-- Is the effect an order placement? -/
def isPlaceEffect : Effect → Bool
  | Effect.placeLimit _ _ _ _ => true
  | Effect.placeMarket _ _ _ => true
  | Effect.journal _ => false

/-- Is the effect a journal write? -/
def isJournalEffect : Effect → Bool
  | Effect.journal _ => true
  | _ => false

/-- Number of order placements in an effect list. -/
def countPlaces (l : List Effect) : ℕ :=
  (l.filter isPlaceEffect).length

/-- Number of journal writes in an effect list. -/
def countJournalWrites (l : List Effect) : ℕ :=
  (l.filter isJournalEffect).length

/-! Shared concrete fixtures for witnesses and counterexamples (spec §8
end-to-end scenario constants: fixed mode, ratio 0.1, minimum 0.002 BTC,
BTC decimals 3; cfgB uses ratio 1). -/

def cfgA : Config :=
  { mode := TradingMode.fixed
    fixedRatioVal := 1/10
    equalRatioVal := 1
    minOrderSize := fun c => if c = "BTC" then some (MinSizeCfg.scalar (1/500)) else none
    maxPositionSize := fun _ => none }

def eqA : EqInput := ⟨true, 1, 1⟩

def emptySys : SysState :=
  { journal := []
    mapper := { m2f := fun _ => none, f2m := fun _ => none, tsOrder := fun _ => none }
    pendingDelta := fun _ => 0 }

/-- Fixture: an orphan ledger holding one record for oid `"42"`. -/
def orphanLedgerA : OrphanLedger :=
  { orphans := fun k =>
      if k = "42" then
        some { coin := "BTC", side := Side.B, size := some (1/500),
               price := some 30000, binanceOrderId := "b1",
               masterSize := some (1/50) }
      else none
    pendingDelta := fun _ => 0 }

/-- Fixture: the empty orphan ledger. -/
def orphanLedger0 : OrphanLedger :=
  { orphans := fun _ => none, pendingDelta := fun _ => 0 }

/-- Fixture: the empty mapper. -/
def mapper0 : MapperState :=
  { m2f := fun _ => none, f2m := fun _ => none, tsOrder := fun _ => none }

/-- Fixture: ledger carrying pending delta 0.01 on BTC (a previously
skipped 0.01 buy). -/
def stB : SysState :=
  { emptySys with pendingDelta := fun c => if c = "BTC" then 1/100 else 0 }

/-- Fixture: a 0.01-BTC Master buy limit order. -/
def eB : LimitOrderData :=
  { coin := "BTC", side := Side.B, limitPx := 30000, sz := 1/100, oid := "101" }

/-- Fixture: flat follower, placement succeeds with id `"b2"`. -/
def envB : Env :=
  { currentPos := 0, eqIn := eqA, place := PlaceOutcome.placed "b2", now := 6 }

/-- Fixture: config with ratio 1 (so follower sizes equal master sizes). -/
def cfgB : Config :=
  { mode := TradingMode.fixed
    fixedRatioVal := 1
    equalRatioVal := 1
    minOrderSize := fun c => if c = "BTC" then some (MinSizeCfg.scalar (1/500)) else none
    maxPositionSize := fun _ => none }

/-- Fixture: a 0.004-BTC Master taker sell. -/
def fC : FillData :=
  { coin := "BTC", side := Side.A, px := 30000, sz := 1/250, szRaw := "0.004",
    timestamp := 7 }

/-- Fixture: follower long 0.001 BTC, placement succeeds. -/
def envC : Env :=
  { currentPos := 1/1000, eqIn := eqA, place := PlaceOutcome.placed "b3", now := 9 }

/-- Fixture: the spec §8 scenario-1 Master order (`Buy 0.02 BTC @ 30000`). -/
def eA : LimitOrderData :=
  { coin := "BTC", side := Side.B, limitPx := 30000, sz := 1/50, oid := "100" }

/-- Fixture: flat follower, placement succeeds with id `"b1"`. -/
def envA : Env :=
  { currentPos := 0, eqIn := eqA, place := PlaceOutcome.placed "b1", now := 5 }

/-- Fixture: the spec §8 scenario-2 first order (`Buy 0.01`, below
minimum). -/
def eW1 : LimitOrderData :=
  { coin := "BTC", side := Side.B, limitPx := 30000, sz := 1/100, oid := "100" }

/-- Fixture: spec §8 scenario-2 history — a skipped below-minimum buy
followed by an enforced buy of the same size. -/
def evsW : List (MEvent × Env) :=
  [(MEvent.limit eW1, envA), (MEvent.limit eB, envB)]

/-! Helper lemmas. -/

theorem markOrderProcessed_pendingDelta (st : SysState) (oid : String) :
    (markOrderProcessed st oid).pendingDelta = st.pendingDelta := rfl

theorem addPendingDelta_at (st : SysState) (coin x : String) (v : ℚ) :
    (addPendingDelta st coin v).pendingDelta x =
      if x = coin then st.pendingDelta x + v else st.pendingDelta x := rfl

theorem consumePendingDelta_at (st : SysState) (coin x : String) (a : ℚ) :
    (consumePendingDelta st coin a).pendingDelta x =
      if x = coin then st.pendingDelta x - a else st.pendingDelta x := by
  unfold consumePendingDelta
  by_cases h : a = 0
  · simp [h]
  · simp only [h, if_false, addPendingDelta_at]
    split <;> ring_nf

theorem consumePendingDelta_journal (st : SysState) (coin : String) (a : ℚ) :
    (consumePendingDelta st coin a).journal = st.journal := by
  unfold consumePendingDelta addPendingDelta
  split <;> rfl

theorem consumePendingDelta_mapper (st : SysState) (coin : String) (a : ℚ) :
    (consumePendingDelta st coin a).mapper = st.mapper := by
  unfold consumePendingDelta addPendingDelta
  split <;> rfl

/-- `getEnforcedQuantity` only ever returns the configured minimum size. -/
theorem getEnforcedQuantity_some (cfg : Config) (coin : String)
    (cq : Option ℚ) (d : ℚ) (a : ActionType) (x : ℚ)
    (h : getEnforcedQuantity cfg coin cq d a = some x) :
    x = minSizeFor cfg coin a := by
  unfold getEnforcedQuantity at h
  cases cq with
  | none => split at h <;> simp_all
  | some q =>
      split at h
      · simp_all
      · split at h <;> simp_all

/-- Inversion: a limit event with outcome `placedEnforced m` placed the
configured minimum size and consumed the pending delta `S − s`. -/
theorem stepLimit_placedEnforced_inv (cfg : Config) (env : Env) (st : SysState)
    (e : LimitOrderData) (st2 : SysState) (effs : List Effect) (m : ℚ)
    (h : stepLimit cfg env st e = (st2, effs, Outcome.placedEnforced m)) :
    m = minSizeFor cfg e.coin (actionTypeOf env.currentPos e.side) ∧
      st2.pendingDelta e.coin =
        st.pendingDelta e.coin -
          (getTotalExecutionSize st e.coin (signedSize e.side e.sz) -
            signedSize e.side e.sz) := by
  simp only [stepLimit] at h
  repeat' split at h
  all_goals simp only [Prod.mk.injEq] at h
  all_goals obtain ⟨hst, heffs, hout⟩ := h
  all_goals cases hout
  refine ⟨getEnforcedQuantity_some cfg e.coin _ _ _ _ (by assumption), ?_⟩
  rw [← hst, consumePendingDelta_at]
  simp [markOrderProcessed]

/-- Inversion: a market event with outcome `placedEnforced m` placed the
configured minimum size and consumed the pending delta `S − s`. -/
theorem stepMarket_placedEnforced_inv (cfg : Config) (env : Env) (st : SysState)
    (f : FillData) (st2 : SysState) (effs : List Effect) (m : ℚ)
    (h : stepMarket cfg env st f = (st2, effs, Outcome.placedEnforced m)) :
    m = minSizeFor cfg f.coin (actionTypeOf env.currentPos f.side) ∧
      st2.pendingDelta f.coin =
        st.pendingDelta f.coin -
          (getTotalExecutionSize st f.coin (signedSize f.side f.sz) -
            signedSize f.side f.sz) := by
  simp only [stepMarket] at h
  repeat' split at h
  all_goals simp only [Prod.mk.injEq] at h
  all_goals obtain ⟨hst, heffs, hout⟩ := h
  all_goals cases hout
  all_goals refine ⟨getEnforcedQuantity_some cfg f.coin _ _ _ _ (by assumption), ?_⟩
  all_goals rw [← hst, consumePendingDelta_at]
  all_goals simp [markOrderProcessed]

/-- Inversion: a limit event with outcome `placedNormal a q` invoked the
calculator on the per-order size `|s|` (not the delta-adjusted total),
submitted exactly the calculator's answer, and consumed `S − s`. -/
theorem stepLimit_placedNormal_inv (cfg : Config) (env : Env) (st : SysState)
    (e : LimitOrderData) (st2 : SysState) (effs : List Effect) (a q : ℚ)
    (h : stepLimit cfg env st e = (st2, effs, Outcome.placedNormal a q)) :
    a = |signedSize e.side e.sz| ∧
      calculateQuantity cfg e.coin |signedSize e.side e.sz| env.eqIn
          (actionTypeOf env.currentPos e.side) = some q ∧
      effs = [Effect.placeLimit e.coin e.side e.limitPx q, Effect.journal e.oid] ∧
      st2.pendingDelta e.coin =
        st.pendingDelta e.coin -
          (getTotalExecutionSize st e.coin (signedSize e.side e.sz) -
            signedSize e.side e.sz) := by
  simp only [stepLimit] at h
  repeat' split at h
  all_goals simp only [Prod.mk.injEq] at h
  all_goals obtain ⟨hst, heffs, hout⟩ := h
  all_goals cases hout
  refine ⟨rfl, by assumption, heffs.symm, ?_⟩
  rw [← hst, consumePendingDelta_at]
  simp [markOrderProcessed]

/-- Inversion: a market event with outcome `placedNormal a q` invoked the
calculator on the delta-adjusted total `|S|`, submitted exactly the
calculator's answer — with no cap to the current position — and consumed
`S − s`. -/
theorem stepMarket_placedNormal_inv (cfg : Config) (env : Env) (st : SysState)
    (f : FillData) (st2 : SysState) (effs : List Effect) (a q : ℚ)
    (h : stepMarket cfg env st f = (st2, effs, Outcome.placedNormal a q)) :
    a = |getTotalExecutionSize st f.coin (signedSize f.side f.sz)| ∧
      calculateQuantity cfg f.coin a env.eqIn
          (actionTypeOf env.currentPos f.side) = some q ∧
      effs = [Effect.placeMarket f.coin f.side q, Effect.journal f.fillId] ∧
      st2.pendingDelta f.coin =
        st.pendingDelta f.coin -
          (getTotalExecutionSize st f.coin (signedSize f.side f.sz) -
            signedSize f.side f.sz) := by
  simp only [stepMarket] at h
  repeat' split at h
  all_goals simp only [Prod.mk.injEq] at h
  all_goals obtain ⟨hst, heffs, hout⟩ := h
  all_goals cases hout
  all_goals refine ⟨rfl, by assumption, heffs.symm, ?_⟩
  all_goals rw [← hst, consumePendingDelta_at]
  all_goals simp [markOrderProcessed]

/-- Delta accounting of one limit event: the new ledger value equals the
old plus the event's Target contribution minus its Actual contribution. -/
theorem stepLimit_delta (cfg : Config) (env : Env) (st : SysState) (e : LimitOrderData)
    (st2 : SysState) (effs : List Effect) (o : Outcome)
    (h : stepLimit cfg env st e = (st2, effs, o)) (hacc : o.isAccounted = true) (c : String) :
    st2.pendingDelta c = st.pendingDelta c +
      (if c = e.coin then
        (contribution o (signedSize e.side e.sz) (signedSize e.side e.sz + st.pendingDelta e.coin)).1 -
          (contribution o (signedSize e.side e.sz) (signedSize e.side e.sz + st.pendingDelta e.coin)).2
       else 0) := by
  simp only [stepLimit] at h
  repeat' split at h
  all_goals simp only [Prod.mk.injEq] at h
  all_goals obtain ⟨hst, heffs, hout⟩ := h
  all_goals cases hout
  all_goals first
    | simp at hacc
    | (rw [← hst]
       by_cases hc : c = e.coin <;>
         simp [hc, contribution, consumePendingDelta_at, addPendingDelta_at,
           markOrderProcessed, getTotalExecutionSize])

/-- Delta accounting of one market event. -/
theorem stepMarket_delta (cfg : Config) (env : Env) (st : SysState) (f : FillData)
    (st2 : SysState) (effs : List Effect) (o : Outcome)
    (h : stepMarket cfg env st f = (st2, effs, o)) (hacc : o.isAccounted = true) (c : String) :
    st2.pendingDelta c = st.pendingDelta c +
      (if c = f.coin then
        (contribution o (signedSize f.side f.sz) (signedSize f.side f.sz + st.pendingDelta f.coin)).1 -
          (contribution o (signedSize f.side f.sz) (signedSize f.side f.sz + st.pendingDelta f.coin)).2
       else 0) := by
  simp only [stepMarket] at h
  repeat' split at h
  all_goals simp only [Prod.mk.injEq] at h
  all_goals obtain ⟨hst, heffs, hout⟩ := h
  all_goals cases hout
  all_goals first
    | simp at hacc
    | (rw [← hst]
       by_cases hc : c = f.coin <;>
         simp [hc, contribution, consumePendingDelta_at, addPendingDelta_at,
           markOrderProcessed, getTotalExecutionSize])

/-- An event whose id is already journaled is inert: no state change, no
effects. -/
theorem stepEvent_dedup (cfg : Config) (env : Env) (st : SysState) (ev : MEvent)
    (h : isOrderProcessed st ev.eventId = true) :
    stepEvent cfg env st ev = (st, [], Outcome.dedupSkip) := by
  cases ev with
  | limit e =>
      have h' : isOrderProcessed st e.oid = true := h
      simp [stepEvent, stepLimit, h']
  | market f =>
      have h' : isOrderProcessed st f.fillId = true := h
      simp [stepEvent, stepMarket, h']

/-- Forward evaluation of a fresh, riskable, successfully placed limit
order: the mapping is saved, the oid journaled, and `S − s` consumed. -/
theorem stepLimit_success (cfg : Config) (env : Env) (st : SysState)
    (e : LimitOrderData) (q : ℚ) (orderId : String)
    (h1 : isOrderProcessed st e.oid = false)
    (h2 : st.mapper.m2f e.oid = none)
    (h3 : calculateQuantity cfg e.coin |signedSize e.side e.sz| env.eqIn
        (actionTypeOf env.currentPos e.side) = some q)
    (h4 : 0 < q)
    (h5 : checkPositionLimit cfg e.coin env.currentPos q = true)
    (h6 : env.place = PlaceOutcome.placed orderId) :
    stepLimit cfg env st e =
      (consumePendingDelta
        (markOrderProcessed
          { st with mapper := saveMapping st.mapper e.oid orderId (getBinanceSymbol e.coin) env.now }
          e.oid)
        e.coin (getTotalExecutionSize st e.coin (signedSize e.side e.sz) - signedSize e.side e.sz),
       [Effect.placeLimit e.coin e.side e.limitPx q, Effect.journal e.oid],
       Outcome.placedNormal |signedSize e.side e.sz| q) := by
  simp only [stepLimit, h1, h2, h3, h5, h6, Option.isSome_none, Bool.false_eq_true,
    if_false, not_le.mpr h4, decide_eq_true_eq]
  simp [not_le.mpr h4]

/-! ### Claims -/

/-- C7 (corrected): in `calculateQuantity` the minimum-size policy is
applied to the *unrounded* scaled quantity first, and rounding to the
instrument precision happens afterwards; a non-null result is the rounded
scaled quantity, is positive, and certifies that the unrounded scaled
quantity was at or above the minimum for the action type. -/
theorem claim_C7 (cfg : Config) (coin : String) (orig : ℚ) (e : EqInput)
    (a : ActionType) (r : ℚ)
    (h : calculateQuantity cfg coin orig e a = some r) :
    minSizeFor cfg coin a ≤ scaledQuantity cfg coin orig e ∧
      r = roundToPrecision (scaledQuantity cfg coin orig e) coin ∧ 0 < r := by
  simp only [calculateQuantity] at h
  split at h
  · simp at h
  · next hmin =>
      split at h
      · simp at h
      · next hpos =>
          have hr := Option.some_inj.mp h
          exact ⟨le_of_not_lt hmin, hr.symm, hr ▸ lt_of_not_le hpos⟩

/-- C7 witness: a successful translation (0.02 BTC at ratio 0.1, minimum
0.002) instantiating `claim_C7`. -/
theorem claim_C7_witness :
    minSizeFor cfgA "BTC" ActionType.opening ≤ scaledQuantity cfgA "BTC" (1/50) eqA ∧
      (1/500 : ℚ) = roundToPrecision (scaledQuantity cfgA "BTC" (1/50) eqA) "BTC" ∧
      (0 : ℚ) < 1/500 :=
  claim_C7 cfgA "BTC" (1/50) eqA ActionType.opening (1/500) (by with_unfolding_all rfl)

/-- C7 counterexample: at master size 0.0195, the scaled quantity 0.00195
is below the minimum 0.002 and the source returns `null`, while the
claimed round-before-minimum order would round to 0.002 and accept it. -/
theorem claim_C7_counterexample :
    calculateQuantity cfgA "BTC" (39/2000) eqA ActionType.opening = none ∧
      calculateQuantitySpecOrder cfgA "BTC" (39/2000) eqA ActionType.opening = some (1/500) ∧
      calculateQuantity cfgA "BTC" (39/2000) eqA ActionType.opening ≠
        calculateQuantitySpecOrder cfgA "BTC" (39/2000) eqA ActionType.opening :=
  ⟨by with_unfolding_all rfl, by with_unfolding_all rfl, by with_unfolding_all decide⟩

/-- C8 (corrected): `createLimitOrder` submits the Master's price verbatim
(`price.toString()`); no tick-size snapping is applied, so the submitted
price agrees with the snapped price only when the Master's price is
already on the tick. -/
theorem claim_C8 (coin : String) (side : Side) (px qty tick : ℚ) :
    (createLimitOrderParams coin side px qty).price = px ∧
      (createLimitOrderParams coin side px qty).symbol = getBinanceSymbol coin ∧
      (createLimitOrderParams coin side px qty).orderType = "LIMIT" ∧
      (createLimitOrderParams coin side px qty).timeInForce = "GTC" ∧
      (createLimitOrderParams coin side px qty).quantity = qty ∧
      ((createLimitOrderParams coin side px qty).price = snapPrice tick px ↔
        px = snapPrice tick px) := by
  simp [createLimitOrderParams]

/-- C8 counterexample: Master price 30000.05 with Follower tick 0.1 —
the claim's snapped price is 30000.1, but the source submits 30000.05. -/
theorem claim_C8_counterexample :
    (createLimitOrderParams "BTC" Side.B (600001/20) (1/500)).price ≠
      snapPrice (1/10) (600001/20) ∧
      snapPrice (1/10) (600001/20) = 300001/10 ∧
      (createLimitOrderParams "BTC" Side.B (600001/20) (1/500)).price = 600001/20 :=
  ⟨by with_unfolding_all decide, by with_unfolding_all rfl, by with_unfolding_all rfl⟩

/-- C9 (confirmed): a failed follower-position query makes `getPosition`
return the sentinel 0, under which the executor's action classifier always
chooses `open`, and the risk gate's position-limit check is evaluated
against a zero current position. -/
theorem claim_C9 (cfg : Config) (coin : String) (side : Side) (q : ℚ) :
    getPosition none coin = 0 ∧
      actionTypeOf (getPosition none coin) side = ActionType.opening ∧
      isClosingPos (getPosition none coin) side = false ∧
      checkPositionLimit cfg coin (getPosition none coin) q =
        checkPositionLimit cfg coin 0 q := by
  refine ⟨rfl, ?_, ?_, rfl⟩ <;>
    cases side <;> simp [actionTypeOf, isClosingPos, getPosition]

/-- C10 (confirmed): `recordOrphanFill` is guarded by the existence check
on `orphanFill:<oid>`; when a record already exists the call changes
nothing — neither the stored record nor the Delta Ledger. -/
theorem claim_C10 (cfg : Config) (e : EqInput) (st : OrphanLedger)
    (oid : String) (fd : FillDetails)
    (h : (st.orphans oid).isSome = true) :
    recordOrphanFill cfg e st oid fd = st := by
  unfold recordOrphanFill
  simp [h]

/-- C10 witness: a second fill report for oid `"42"` (e.g. a later partial
fill, with a different size) leaves the ledger untouched. -/
theorem claim_C10_witness :
    (orphanLedgerA.orphans "42").isSome = true ∧
      recordOrphanFill cfgA eqA orphanLedgerA "42"
        (callerFillDetails "BTC" Side.B (1/1000) 30000 "b1") = orphanLedgerA :=
  ⟨by with_unfolding_all rfl,
   claim_C10 cfgA eqA orphanLedgerA "42"
     (callerFillDetails "BTC" Side.B (1/1000) 30000 "b1")
     (by with_unfolding_all rfl)⟩

/-- C5 (code_bug): the user-stream handler passes the follower fill size
under the key `sz` while `recordOrphanFill` reads `fillDetails.size`, so
the size arrives as `undefined`: recording a 0.002-BTC orphan fill (fixed
mode, ratio 0.1) adjusts Δ by nothing instead of the claimed
`−signedMasterEquivalent = −0.02`, and the later Master Filled event can
never resolve the record (the stored master size is `NaN`), leaving both
the record and Δ unchanged. -/
theorem claim_C5_bug :
    orphanDeltaAdjustment cfgA eqA (callerFillDetails "BTC" Side.B (1/500) 30000 "b1") = none ∧
      -(getReversedMasterSize cfgA (1/500) eqA) = -(1/50) ∧
      (recordOrphanFill cfgA eqA orphanLedger0 "42"
          (callerFillDetails "BTC" Side.B (1/500) 30000 "b1")).pendingDelta "BTC" = 0 ∧
      ((recordOrphanFill cfgA eqA orphanLedger0 "42"
          (callerFillDetails "BTC" Side.B (1/500) 30000 "b1")).orphans "42").isSome = true ∧
      handleHyperliquidFill cfgA eqA
          (recordOrphanFill cfgA eqA orphanLedger0 "42"
            (callerFillDetails "BTC" Side.B (1/500) 30000 "b1")) "42" =
        recordOrphanFill cfgA eqA orphanLedger0 "42"
          (callerFillDetails "BTC" Side.B (1/500) 30000 "b1") :=
  ⟨by with_unfolding_all rfl, by with_unfolding_all rfl, by with_unfolding_all rfl,
   by with_unfolding_all rfl, by with_unfolding_all rfl⟩

/-- C6 (confirmed): `saveMapping` writes both direction keys and the
creation timestamp in one pipeline, each with the 7-day TTL; `deleteMapping`
removes both directions and the timestamp in one pipeline; and invariant I1
(forward mapping implies matching inverse mapping with the same symbol) is
preserved by `deleteMapping` always and by `saveMapping` whenever the new
follower order id is fresh (Binance order ids are unique). -/
theorem claim_C6 (st : MapperState) (m f sym : String) (now : ℕ) :
    ((saveMapping st m f sym now).m2f m = some ⟨f, sym, mapperExpiry⟩ ∧
      (saveMapping st m f sym now).f2m f = some ⟨m, sym, mapperExpiry⟩ ∧
      (saveMapping st m f sym now).tsOrder m = some (now, mapperExpiry)) ∧
    ((deleteMapping st m).m2f m = none ∧
      (deleteMapping st m).tsOrder m = none ∧
      ∀ e, st.m2f m = some e → (deleteMapping st m).f2m e.orderId = none) ∧
    (MapperInv st → (∀ m' e', st.m2f m' = some e' → e'.orderId ≠ f) →
      MapperInv (saveMapping st m f sym now)) ∧
    (MapperInv st → MapperInv (deleteMapping st m)) := by
  refine ⟨⟨by simp [saveMapping], by simp [saveMapping], by simp [saveMapping]⟩,
    ⟨by simp [deleteMapping], by simp [deleteMapping], ?_⟩, ?_, ?_⟩
  · intro e he
    simp [deleteMapping, he]
  · intro hInv hFresh m2 e2 h2
    simp only [saveMapping] at h2 ⊢
    by_cases hm : m2 = m
    · subst hm
      rw [if_pos rfl] at h2
      obtain rfl := Option.some_inj.mp h2
      exact ⟨⟨m2, sym, mapperExpiry⟩, by simp, rfl, rfl⟩
    · rw [if_neg hm] at h2
      obtain ⟨i, hi, hio, his⟩ := hInv m2 e2 h2
      refine ⟨i, ?_, hio, his⟩
      rw [if_neg (hFresh m2 e2 h2), hi]
  · intro hInv m2 e2 h2
    simp only [deleteMapping] at h2 ⊢
    by_cases hm : m2 = m
    · simp [hm] at h2
    · rw [if_neg hm] at h2
      obtain ⟨i, hi, hio, his⟩ := hInv m2 e2 h2
      refine ⟨i, ?_, hio, his⟩
      cases hm0 : st.m2f m with
      | none => exact hi
      | some e0 =>
          have hneq : e2.orderId ≠ e0.orderId := by
            intro hkey
            obtain ⟨i0, hi0, hi0o, _⟩ := hInv m e0 hm0
            apply hm
            have hii : st.f2m e0.orderId = some i := by rw [← hkey]; exact hi
            have hEq : i0 = i := Option.some_inj.mp (hi0.symm.trans hii)
            rw [← hio, ← hEq, hi0o]
          dsimp only
          rw [if_neg hneq]
          exact hi

/-- C6 witness: saving the pair `("h1", "b1")` on the empty mapper writes
both directions with the 7-day TTL, the resulting state satisfies I1, and
deleting restores an I1 state with both directions gone. -/
theorem claim_C6_witness :
    (saveMapping mapper0 "h1" "b1" "BTCUSDT" 5).m2f "h1" =
        some ⟨"b1", "BTCUSDT", mapperExpiry⟩ ∧
      (saveMapping mapper0 "h1" "b1" "BTCUSDT" 5).f2m "b1" =
        some ⟨"h1", "BTCUSDT", mapperExpiry⟩ ∧
      MapperInv (saveMapping mapper0 "h1" "b1" "BTCUSDT" 5) ∧
      MapperInv (deleteMapping mapper0 "h1") := by
  have h0 : MapperInv mapper0 := by
    intro m e h
    simp [mapper0] at h
  have hFresh : ∀ m' e', mapper0.m2f m' = some e' → e'.orderId ≠ "b1" := by
    intro m' e' h
    simp [mapper0] at h
  exact ⟨(claim_C6 mapper0 "h1" "b1" "BTCUSDT" 5).1.1,
    (claim_C6 mapper0 "h1" "b1" "BTCUSDT" 5).1.2.1,
    (claim_C6 mapper0 "h1" "b1" "BTCUSDT" 5).2.2.1 h0 hFresh,
    (claim_C6 mapper0 "h1" "b1" "BTCUSDT" 5).2.2.2 h0⟩

/-- C4 (confirmed): once the calculated quantity is null or zero,
`getEnforcedQuantity` fires exactly when the pending delta is nonzero —
whatever its sign — and returns the configured minimum size for the action
type; and an enforced placement (limit or market) consumes `S − s` from
the ledger. -/
theorem claim_C4 :
    (∀ (cfg : Config) (coin : String) (cq : Option ℚ) (d : ℚ) (a : ActionType),
      cq = none ∨ cq = some 0 →
      getEnforcedQuantity cfg coin cq d a =
        if d = 0 then none else some (minSizeFor cfg coin a)) ∧
    (∀ (cfg : Config) (env : Env) (st : SysState) (e : LimitOrderData)
        (st2 : SysState) (effs : List Effect) (m : ℚ),
      stepLimit cfg env st e = (st2, effs, Outcome.placedEnforced m) →
      m = minSizeFor cfg e.coin (actionTypeOf env.currentPos e.side) ∧
        st2.pendingDelta e.coin =
          st.pendingDelta e.coin -
            (getTotalExecutionSize st e.coin (signedSize e.side e.sz) -
              signedSize e.side e.sz)) ∧
    (∀ (cfg : Config) (env : Env) (st : SysState) (f : FillData)
        (st2 : SysState) (effs : List Effect) (m : ℚ),
      stepMarket cfg env st f = (st2, effs, Outcome.placedEnforced m) →
      m = minSizeFor cfg f.coin (actionTypeOf env.currentPos f.side) ∧
        st2.pendingDelta f.coin =
          st.pendingDelta f.coin -
            (getTotalExecutionSize st f.coin (signedSize f.side f.sz) -
              signedSize f.side f.sz)) := by
  refine ⟨?_, ?_, ?_⟩
  · rintro cfg coin cq d a (rfl | rfl) <;>
      · unfold getEnforcedQuantity
        by_cases hd : d = 0 <;> simp [hd, abs_pos]
  · intro cfg env st e st2 effs m h
    exact stepLimit_placedEnforced_inv cfg env st e st2 effs m h
  · intro cfg env st f st2 effs m h
    exact stepMarket_placedEnforced_inv cfg env st f st2 effs m h

/-- C4 witness: with calculated quantity null and Δ = 0.01, enforcement
returns the 0.002 minimum; the spec §8 scenario-2 event (`Buy 0.01` after a
skipped `Buy 0.01`) is enforced at the minimum and clears Δ to 0. -/
theorem claim_C4_witness :
    getEnforcedQuantity cfgA "BTC" none (1/100) ActionType.opening =
      (if (1/100 : ℚ) = 0 then none
       else some (minSizeFor cfgA "BTC" ActionType.opening)) ∧
      ((1 : ℚ)/500 = minSizeFor cfgA eB.coin (actionTypeOf envB.currentPos eB.side) ∧
        (stepLimit cfgA envB stB eB).1.pendingDelta eB.coin =
          stB.pendingDelta eB.coin -
            (getTotalExecutionSize stB eB.coin (signedSize eB.side eB.sz) -
              signedSize eB.side eB.sz)) :=
  ⟨claim_C4.1 cfgA "BTC" none (1/100) ActionType.opening (Or.inl rfl),
   claim_C4.2.1 cfgA envB stB eB (stepLimit cfgA envB stB eB).1
     (stepLimit cfgA envB stB eB).2.1 (1/500) (by with_unfolding_all rfl)⟩

/-- C3 (corrected): the limit path hands the calculator the per-order size
`|s|` while the fill path hands it the delta-adjusted total `|S|`; in both
paths the submitted quantity is exactly the calculator's output — the fill
path applies no cap to the current position — and a successful placement
clears Δ by `S − s`. -/
theorem claim_C3 :
    (∀ (cfg : Config) (env : Env) (st : SysState) (e : LimitOrderData)
        (st2 : SysState) (effs : List Effect) (a q : ℚ),
      stepLimit cfg env st e = (st2, effs, Outcome.placedNormal a q) →
      a = |signedSize e.side e.sz| ∧
        calculateQuantity cfg e.coin |signedSize e.side e.sz| env.eqIn
            (actionTypeOf env.currentPos e.side) = some q ∧
        effs = [Effect.placeLimit e.coin e.side e.limitPx q, Effect.journal e.oid] ∧
        st2.pendingDelta e.coin =
          st.pendingDelta e.coin -
            (getTotalExecutionSize st e.coin (signedSize e.side e.sz) -
              signedSize e.side e.sz)) ∧
    (∀ (cfg : Config) (env : Env) (st : SysState) (f : FillData)
        (st2 : SysState) (effs : List Effect) (a q : ℚ),
      stepMarket cfg env st f = (st2, effs, Outcome.placedNormal a q) →
      a = |getTotalExecutionSize st f.coin (signedSize f.side f.sz)| ∧
        calculateQuantity cfg f.coin a env.eqIn
            (actionTypeOf env.currentPos f.side) = some q ∧
        effs = [Effect.placeMarket f.coin f.side q, Effect.journal f.fillId] ∧
        st2.pendingDelta f.coin =
          st.pendingDelta f.coin -
            (getTotalExecutionSize st f.coin (signedSize f.side f.sz) -
              signedSize f.side f.sz)) :=
  ⟨fun cfg env st e st2 effs a q h => stepLimit_placedNormal_inv cfg env st e st2 effs a q h,
   fun cfg env st f st2 effs a q h => stepMarket_placedNormal_inv cfg env st f st2 effs a q h⟩

/-- C3 counterexample: a Master sell fill of 0.004 BTC against a follower
long of only 0.001 BTC is classified as closing, yet the market order is
submitted for the full calculated 0.004 — the claimed cap to `|P| = 0.001`
does not exist in the fill path. -/
theorem claim_C3_counterexample :
    (stepMarket cfgB envC emptySys fC).2.1 =
        [Effect.placeMarket "BTC" Side.A (1/250), Effect.journal "fill:BTC:7:0.004"] ∧
      isClosingPos envC.currentPos fC.side = true ∧
      (1/250 : ℚ) > |envC.currentPos| :=
  ⟨by with_unfolding_all rfl, by with_unfolding_all rfl, by with_unfolding_all decide⟩

/-- C3 witness: the uncapped closing fill of the counterexample fixture
instantiates the market half of `claim_C3`. -/
theorem claim_C3_witness :
    (1/250 : ℚ) = |getTotalExecutionSize emptySys fC.coin (signedSize fC.side fC.sz)| ∧
      calculateQuantity cfgB fC.coin (1/250) envC.eqIn
          (actionTypeOf envC.currentPos fC.side) = some (1/250) ∧
      (stepMarket cfgB envC emptySys fC).2.1 =
        [Effect.placeMarket fC.coin fC.side (1/250), Effect.journal fC.fillId] ∧
      (stepMarket cfgB envC emptySys fC).1.pendingDelta fC.coin =
        emptySys.pendingDelta fC.coin -
          (getTotalExecutionSize emptySys fC.coin (signedSize fC.side fC.sz) -
            signedSize fC.side fC.sz) :=
  claim_C3.2 cfgB envC emptySys fC (stepMarket cfgB envC emptySys fC).1
    (stepMarket cfgB envC emptySys fC).2.1 (1/250) (1/250)
    (by with_unfolding_all rfl)

/-- C2 (confirmed): an event id present in the journal is never acted on
again — redelivery is a strict no-op (same state, no effects); and a fresh
Master Open that places successfully, delivered twice, produces exactly one
placement and one journal write, the second delivery being inert. -/
theorem claim_C2 :
    (∀ (cfg : Config) (env : Env) (st : SysState) (ev : MEvent),
      isOrderProcessed st ev.eventId = true →
      stepEvent cfg env st ev = (st, [], Outcome.dedupSkip)) ∧
    (∀ (cfg : Config) (env env2 : Env) (st : SysState) (e : LimitOrderData)
        (q : ℚ) (orderId : String),
      isOrderProcessed st e.oid = false →
      st.mapper.m2f e.oid = none →
      calculateQuantity cfg e.coin |signedSize e.side e.sz| env.eqIn
          (actionTypeOf env.currentPos e.side) = some q →
      0 < q →
      checkPositionLimit cfg e.coin env.currentPos q = true →
      env.place = PlaceOutcome.placed orderId →
      countPlaces ((stepLimit cfg env st e).2.1 ++
          (stepLimit cfg env2 (stepLimit cfg env st e).1 e).2.1) = 1 ∧
        countJournalWrites ((stepLimit cfg env st e).2.1 ++
          (stepLimit cfg env2 (stepLimit cfg env st e).1 e).2.1) = 1 ∧
        stepLimit cfg env2 (stepLimit cfg env st e).1 e =
          ((stepLimit cfg env st e).1, [], Outcome.dedupSkip)) := by
  constructor
  · exact fun cfg env st ev h => stepEvent_dedup cfg env st ev h
  · intro cfg env env2 st e q orderId h1 h2 h3 h4 h5 h6
    have hstep := stepLimit_success cfg env st e q orderId h1 h2 h3 h4 h5 h6
    have hj : isOrderProcessed (stepLimit cfg env st e).1 e.oid = true := by
      rw [hstep]
      simp [isOrderProcessed, consumePendingDelta_journal, markOrderProcessed]
    have hded : stepLimit cfg env2 (stepLimit cfg env st e).1 e =
        ((stepLimit cfg env st e).1, [], Outcome.dedupSkip) := by
      have hd := stepEvent_dedup cfg env2 (stepLimit cfg env st e).1 (MEvent.limit e) hj
      simpa [stepEvent] using hd
    refine ⟨?_, ?_, hded⟩ <;>
      · rw [hded, hstep]
        simp [countPlaces, countJournalWrites, isPlaceEffect, isJournalEffect]

/-- C2 witness: delivering the scenario-1 Open twice yields one placement,
one journal write, and an inert second delivery. -/
theorem claim_C2_witness :
    countPlaces ((stepLimit cfgA envA emptySys eA).2.1 ++
        (stepLimit cfgA envA (stepLimit cfgA envA emptySys eA).1 eA).2.1) = 1 ∧
      countJournalWrites ((stepLimit cfgA envA emptySys eA).2.1 ++
        (stepLimit cfgA envA (stepLimit cfgA envA emptySys eA).1 eA).2.1) = 1 ∧
      stepLimit cfgA envA (stepLimit cfgA envA emptySys eA).1 eA =
        ((stepLimit cfgA envA emptySys eA).1, [], Outcome.dedupSkip) :=
  claim_C2.2 cfgA envA envA emptySys eA (1/500) "b1"
    (by with_unfolding_all rfl) (by with_unfolding_all rfl)
    (by with_unfolding_all rfl) (by with_unfolding_all decide)
    (by with_unfolding_all rfl) rfl

/-- Ledger identity along a history, with running accumulators. -/
theorem runTotalsAux_delta (cfg : Config) (evs : List (MEvent × Env)) :
    ∀ (st : SysState) (tgt act : String → ℚ) (c : String),
      goodRun cfg st evs = true →
      (runTotalsAux cfg st tgt act evs).1.pendingDelta c -
          ((runTotalsAux cfg st tgt act evs).2.1 c -
            (runTotalsAux cfg st tgt act evs).2.2 c) =
        st.pendingDelta c - (tgt c - act c) := by
  induction evs with
  | nil => intro st tgt act c _; simp [runTotalsAux]
  | cons p rest ih =>
      intro st tgt act c hg
      obtain ⟨ev, env⟩ := p
      simp only [goodRun, Bool.and_eq_true] at hg
      obtain ⟨hacc, hrest⟩ := hg
      have hdelta : ∀ x, (stepEvent cfg env st ev).1.pendingDelta x =
          st.pendingDelta x +
            (if x = ev.coin then
              (contribution (stepEvent cfg env st ev).2.2 ev.signed
                  (ev.signed + st.pendingDelta ev.coin)).1 -
                (contribution (stepEvent cfg env st ev).2.2 ev.signed
                  (ev.signed + st.pendingDelta ev.coin)).2
             else 0) := by
        intro x
        cases ev with
        | limit e => exact stepLimit_delta cfg env st e _ _ _ rfl hacc x
        | market f => exact stepMarket_delta cfg env st f _ _ _ rfl hacc x
      simp only [runTotalsAux]
      rw [ih (stepEvent cfg env st ev).1 _ _ c hrest, hdelta c]
      simp only [bump]
      by_cases hc : c = ev.coin <;> simp only [hc, if_true, if_false, ite_true, ite_false] <;> ring

/-- C1 (confirmed): per event, every skip (below-minimum without
enforcement, risk denial, direction/epsilon mismatch) credits the ledger by
`s` and every successful placement debits it by `S − s`; consequently over
any history on which the bookkeeping ran (no throw / missing order id),
the final Δ equals its initial value plus Target minus Actual, per
instrument, in master units. -/
theorem claim_C1 :
    (∀ (cfg : Config) (env : Env) (st : SysState) (ev : MEvent)
        (st2 : SysState) (effs : List Effect) (o : Outcome),
      stepEvent cfg env st ev = (st2, effs, o) →
      (o = Outcome.skippedBelowMin ∨ o = Outcome.skippedRisk ∨
        o = Outcome.skippedDirection) →
      st2.pendingDelta ev.coin = st.pendingDelta ev.coin + ev.signed) ∧
    (∀ (cfg : Config) (env : Env) (st : SysState) (ev : MEvent)
        (st2 : SysState) (effs : List Effect) (o : Outcome),
      stepEvent cfg env st ev = (st2, effs, o) →
      ((∃ a q, o = Outcome.placedNormal a q) ∨ (∃ m, o = Outcome.placedEnforced m)) →
      st2.pendingDelta ev.coin =
        st.pendingDelta ev.coin -
          (getTotalExecutionSize st ev.coin ev.signed - ev.signed)) ∧
    (∀ (cfg : Config) (st : SysState) (evs : List (MEvent × Env)) (c : String),
      goodRun cfg st evs = true →
      (runTotals cfg st evs).1.pendingDelta c =
        st.pendingDelta c +
          ((runTotals cfg st evs).2.1 c - (runTotals cfg st evs).2.2 c)) := by
  have hdel : ∀ (cfg : Config) (env : Env) (st : SysState) (ev : MEvent)
      (st2 : SysState) (effs : List Effect) (o : Outcome),
      stepEvent cfg env st ev = (st2, effs, o) → o.isAccounted = true →
      st2.pendingDelta ev.coin = st.pendingDelta ev.coin +
        ((contribution o ev.signed (ev.signed + st.pendingDelta ev.coin)).1 -
          (contribution o ev.signed (ev.signed + st.pendingDelta ev.coin)).2) := by
    intro cfg env st ev st2 effs o h hacc
    cases ev with
    | limit e =>
        have := stepLimit_delta cfg env st e st2 effs o h hacc e.coin
        simpa [MEvent.coin, MEvent.signed] using this
    | market f =>
        have := stepMarket_delta cfg env st f st2 effs o h hacc f.coin
        simpa [MEvent.coin, MEvent.signed] using this
  refine ⟨?_, ?_, ?_⟩
  · intro cfg env st ev st2 effs o h ho
    have hacc : o.isAccounted = true := by
      rcases ho with rfl | rfl | rfl <;> rfl
    have hd := hdel cfg env st ev st2 effs o h hacc
    rcases ho with rfl | rfl | rfl <;> simpa [contribution] using hd
  · intro cfg env st ev st2 effs o h ho
    have hacc : o.isAccounted = true := by
      rcases ho with ⟨a, q, rfl⟩ | ⟨m, rfl⟩ <;> rfl
    have hd := hdel cfg env st ev st2 effs o h hacc
    rcases ho with ⟨a, q, rfl⟩ | ⟨m, rfl⟩ <;>
      · rw [hd]
        simp only [contribution, getTotalExecutionSize]
        ring
  · intro cfg st evs c hg
    have := runTotalsAux_delta cfg evs st (fun _ => 0) (fun _ => 0) c hg
    simp only [runTotals]
    linarith [this]

/-- C1 witness: on the scenario-2 history the final BTC ledger value equals
the initial value plus Target − Actual (0.02 intended, 0.02 accounted as
executed, Δ back to 0). -/
theorem claim_C1_witness :
    goodRun cfgA emptySys evsW = true ∧
      (runTotals cfgA emptySys evsW).1.pendingDelta "BTC" =
        emptySys.pendingDelta "BTC" +
          ((runTotals cfgA emptySys evsW).2.1 "BTC" -
            (runTotals cfgA emptySys evsW).2.2 "BTC") :=
  ⟨by with_unfolding_all rfl,
   claim_C1.2.2 cfgA emptySys evsW "BTC" (by with_unfolding_all rfl)⟩

end HypeFollow
